import Mathlib

/-!
Verification of the MongoDB query-condition builder
(`pkg/mgo/query/query_condition.go`) of the sponge repository.

The Go file translates a flat list of `(name, exp, value, logic)` column
tuples into a nested boolean MongoDB filter (`bson.M`).  The definitions
below are a shallow embedding of that file: Go `interface{}` values that can
appear in a column's `Value` slot are modelled by the inductive `BVal`,
`bson.M` filter trees produced by the builder are modelled by `MongoFilter`,
and each Go function is translated into a Lean function of the same name.
Go's `(result, error)` multiple-return style is modelled with
`Option`/`Except`; in-place mutation of columns (pointer receivers) is
modelled by returning the updated column, and the `Params` state of
`ConvertToMongoFilter` is threaded explicitly.
-/

namespace Query

/-- Values that can occupy a column's `Value` slot (Go `interface{}`).
Raw inputs are strings, integers or nil; the builder can replace them with a
parsed ObjectID (`primitive.ObjectID`, 12 bytes) or wrap them in the
single-key `bson.M` operator documents that `convert` produces:
`{"$ne": v}`, `{"$gt": v}`, `{"$gte": v}`, `{"$lt": v}`, `{"$lte": v}`,
`{"$regex": s, "$options": "i"}`, `{"$in": list}` and `{"$nin": list}`. -/
inductive BVal where
  | str : String → BVal
  | int : Int → BVal
  | vnil : BVal
  | oid : List Nat → BVal
  | mNe : BVal → BVal
  | mGt : BVal → BVal
  | mGte : BVal → BVal
  | mLt : BVal → BVal
  | mLte : BVal → BVal
  | mRegex : String → BVal
  | mIn : List String → BVal
  | mNin : List String → BVal
deriving DecidableEq, Repr

/-- An element of the `orConditions` slice in the mixed AND/OR branch and the
OR branches: either a single-binding map `bson.M{name: value}` or an
AND-sub-group `bson.M{"$and": [...]}` whose members are single-binding maps
(modelled as name/value pairs). -/
inductive OrItem where
  | pred : String → BVal → OrItem
  | andG : List (String × BVal) → OrItem
deriving DecidableEq, Repr

/-- The top-level `bson.M` filter shapes that `ConvertToMongoFilter`
produces: the empty filter `bson.M{}`, a bare single-binding predicate
`bson.M{name: value}`, an AND-group `bson.M{"$and": [...]}` of
single-binding maps, or an OR-group `bson.M{"$or": [...]}`. -/
inductive MongoFilter where
  | empty : MongoFilter
  | pred : String → BVal → MongoFilter
  | andGroup : List (String × BVal) → MongoFilter
  | orGroup : List OrItem → MongoFilter
deriving DecidableEq, Repr

/-- Go struct `Column` (query_condition.go lines 126-131). -/
structure Column where
  Name : String
  Exp : String
  Value : BVal
  Logic : String
deriving DecidableEq, Repr

/-- Go struct `Params` (query_condition.go lines 114-123).  The Go field
`Sort` is spelled `SortStr` here because `Sort` is reserved in Lean. -/
structure Params where
  Page : Int
  Limit : Int
  SortStr : String
  Columns : List Column
  Size : Int
deriving DecidableEq, Repr

/-- Go struct `rulerOptions`: the whitelist is a `map[string]bool`, modelled
as the list of names mapped to `true` (`none` = no whitelist configured);
`validateFn` returns `nil` or an error, modelled as `Option String`. -/
structure RulerOptions where
  whitelistNames : Option (List String)
  validateFn : Option (List Column → Option String)

/-- Go `strings.ToLower`, exact on the ASCII tokens the lookup maps use
(defined over the character list so that it evaluates by kernel
reduction). -/
def toLowerStr (s : String) : String := String.mk (s.toList.map Char.toLower)

/-- Go map `expMap` (lines 52-70), composed with the `strings.ToLower`
lookup key used at its call site: maps a lower-cased operator token to its
canonical symbol, `none` when the token is unknown. -/
def expMap (s : String) : Option String :=
  if s = "eq" ∨ s = "=" then some "="
  else if s = "neq" ∨ s = "!=" then some "!="
  else if s = "gt" ∨ s = ">" then some ">"
  else if s = "gte" ∨ s = ">=" then some ">="
  else if s = "lt" ∨ s = "<" then some "<"
  else if s = "lte" ∨ s = "<=" then some "<="
  else if s = "like" then some "like"
  else if s = "in" then some "in"
  else if s = "nin" ∨ s = "notin" ∨ s = "not in" then some "nin"
  else none

/-- Go map `logicMap` (lines 72-79): `and`/`&`/`&&` map to `&`
(`andSymbol1`), `or`/`|`/`||` map to `|` (`orSymbol1`). -/
def logicMap (s : String) : Option String :=
  if s = "and" ∨ s = "&" ∨ s = "&&" then some "&"
  else if s = "or" ∨ s = "|" ∨ s = "||" then some "|"
  else none

/-- Go method `(*Column).checkName` (lines 133-138).
`whitelists[c.Name]` on a Go `map[string]bool` is `true` exactly when the
name is a member of the modelled list. -/
def checkName (c : Column) (whitelists : Option (List String)) : Option String :=
  if c.Name = "" ∨ (whitelists.isSome ∧ ¬ (whitelists.getD []).contains c.Name = true) then
    some ("field name \x27" ++ c.Name ++ "\x27 is not allowed")
  else
    none

/-- Go method `(*Column).checkValid` (lines 140-148). -/
def checkValid (c : Column) : Option String :=
  if c.Name = "" then some "field \x27name\x27 cannot be empty"
  else if c.Value = BVal.vnil then some "field \x27value\x27 cannot be nil"
  else none

/-- Go method `(*Column).convertLogic` (lines 150-159); returns the updated
column (the receiver's final state) together with the optional error. -/
def convertLogic (c : Column) : Column × Option String :=
  let c := if c.Logic = "" then { c with Logic := "and" } else c
  match logicMap (toLowerStr c.Logic) with
  | some v => ({ c with Logic := v }, none)
  | none => (c, some ("unknown logic type \x27" ++ c.Logic ++ "\x27"))

/-- Value of a hexadecimal digit, as accepted by Go's `encoding/hex`
(`0-9`, `a-f`, `A-F`). -/
def hexVal (ch : Char) : Option Nat :=
  if '0' ≤ ch ∧ ch ≤ '9' then some (ch.toNat - '0'.toNat)
  else if 'a' ≤ ch ∧ ch ≤ 'f' then some (ch.toNat - 'a'.toNat + 10)
  else if 'A' ≤ ch ∧ ch ≤ 'F' then some (ch.toNat - 'A'.toNat + 10)
  else none

/-- Go `hex.DecodeString` on a character list: consecutive pairs of hex
digits become bytes; odd length or a non-hex digit fails. -/
def decodeHexPairs : List Char → Option (List Nat)
  | [] => some []
  | [_] => none
  | a :: b :: rest =>
    match hexVal a, hexVal b, decodeHexPairs rest with
    | some hi, some lo, some bs => some ((hi * 16 + lo) :: bs)
    | _, _, _ => none

/-- Go `primitive.ObjectIDFromHex`: a 24-character hex string decodes to the
12 bytes of an ObjectID. -/
def objectIDFromHex (s : String) : Option (List Nat) :=
  if s.length = 24 then decodeHexPairs s.toList else none

/-- Go function `isObjectID` (lines 359-367): a string value of length
exactly 24 that parses as hex yields the parsed ObjectID. -/
def isObjectID (v : BVal) : Option (List Nat) :=
  match v with
  | .str s => if s.length = 24 then objectIDFromHex s else none
  | _ => none

/-- The ObjectID-coercion block of `(*Column).convert` (lines 167-175):
when the value is recognized as an ObjectID the value is replaced by the
parsed ObjectID, a name `id` is forced to `_id`, and a `:oid` name suffix
is stripped. -/
def applyOid (c : Column) : Column :=
  match isObjectID c.Value with
  | some v =>
    let c := { c with Value := BVal.oid v }
    if c.Name = "id" then { c with Name := "_id" }
    else if c.Name.endsWith ":oid" then { c with Name := c.Name.dropRight 4 }
    else c
  | none => c

/-- Rendering of a value by Go `fmt.Sprintf("%v", v)`, used by the `like`
branch of `convert`.  Exact only for the scalar values that reach it in
practice (strings render as themselves, integers in decimal); the rendering
of composite values is a placeholder no claim depends on. -/
def sprintV : BVal → String
  | .str s => s
  | .int n => toString n
  | .vnil => "<nil>"
  | _ => "<nonscalar>"

/-- Rendering of a value by Go `fmt.Sprintf("%s", v)`, used only inside the
invalid-value-type error message of the `in`/`nin` branch; the exact text
for non-string values is a placeholder no claim depends on. -/
def sprintS : BVal → String
  | .str s => s
  | _ => "<nonstring>"

/-- The 14 characters escaped by Go `regexp.QuoteMeta`, identified by code
point. -/
def regexSpecial (ch : Char) : Bool :=
  [92, 46, 43, 42, 63, 40, 41, 124, 91, 93, 123, 125, 94, 36].contains ch.toNat

/-- Go `regexp.QuoteMeta`: prefix every regex metacharacter with a
backslash. -/
def quoteMeta (s : String) : String :=
  String.mk (s.toList.foldr
    (fun ch acc => if regexSpecial ch then Char.ofNat 92 :: ch :: acc else ch :: acc) [])

/-- The `switch c.Exp` statement of `convert` (lines 182-208), applied after
`c.Exp` has been replaced by its canonical symbol: wraps the value in the
operator document matching the symbol; `in`/`nin` demand a string value
(split on commas into a list) and fail otherwise; `=` leaves the value
untouched. -/
def applyExpSwitch (c : Column) : Column × Option String :=
  if c.Exp = "!=" then ({ c with Value := .mNe c.Value }, none)
  else if c.Exp = ">" then ({ c with Value := .mGt c.Value }, none)
  else if c.Exp = ">=" then ({ c with Value := .mGte c.Value }, none)
  else if c.Exp = "<" then ({ c with Value := .mLt c.Value }, none)
  else if c.Exp = "<=" then ({ c with Value := .mLte c.Value }, none)
  else if c.Exp = "like" then ({ c with Value := .mRegex (quoteMeta (sprintV c.Value)) }, none)
  else if c.Exp = "in" ∨ c.Exp = "nin" then
    match c.Value with
    | .str val =>
      let values := val.splitOn ","
      ({ c with Value := if c.Exp = "in" then .mIn values else .mNin values }, none)
    | v => (c, some ("invalid value type \x27" ++ sprintS v ++ "\x27"))
  else (c, none)

/-- Go method `(*Column).convert` (lines 162-214); returns the receiver's
final state (mutations persist up to the point of an error) together with
the optional error. -/
def convert (c : Column) : Column × Option String :=
  match checkValid c with
  | some e => (c, some e)
  | none =>
    let c := applyOid c
    let c := if c.Exp = "" then { c with Exp := "eq" } else c
    match expMap (toLowerStr c.Exp) with
    | none => (c, some ("unsported exp type \x27" ++ c.Exp ++ "\x27"))
    | some v =>
      match applyExpSwitch { c with Exp := v } with
      | (c, some e) => (c, some e)
      | (c, none) => convertLogic c

/-- Go constant `allLogicAnd`. -/
def allLogicAnd : Nat := 1

/-- Go constant `allLogicOr`. -/
def allLogicOr : Nat := 2

/-- The loop of `checkSameLogic` (lines 372-383) over all columns but the
last, with `i` the index of the head column: normalizes each column's logic
on a value copy (Go `range` yields copies, so the slice is not written) and
collects, in increasing order, the indexes whose logic is `|`. -/
def orIndexesOf : List Column → Nat → Except String (List Nat)
  | [], _ => .ok []
  | c :: rest, i =>
    match convertLogic c with
    | (_, some e) => .error e
    | (c1, none) =>
      match orIndexesOf rest (i + 1) with
      | .error e => .error e
      | .ok is => .ok (if c1.Logic = "|" then i :: is else is)

/-- The loop of `groupingIndex` (lines 399-410) over the collected OR
indexes, carrying `lastIndex`: emits the run `[lastIndex..index]` for each
OR index, then advances `lastIndex` to `index + 1` when the run was a
singleton and to `index` otherwise; returns the runs and the final
`lastIndex`. -/
def groupingIndexLoop : List Nat → Nat → List (List Nat) × Nat
  | [], lastIndex => ([], lastIndex)
  | index :: rest, lastIndex =>
    let group := List.range' lastIndex (index + 1 - lastIndex)
    let newLast := if lastIndex = index then lastIndex + 1 else index
    let (gs, fin) := groupingIndexLoop rest newLast
    (group :: gs, fin)

/-- Go function `groupingIndex` (lines 396-417): the runs from the loop
followed by the trailing run `[lastIndex+1 .. l-1]`. -/
def groupingIndex (l : Nat) (orIndexes : List Nat) : List (List Nat) :=
  let p := groupingIndexLoop orIndexes 0
  p.1 ++ [List.range' (p.2 + 1) (l - (p.2 + 1))]

/-- Go function `checkSameLogic` (lines 369-394): collect the OR indexes of
all columns but the last; no OR index means all-AND, an OR at every internal
index means all-OR, anything else is the mixed case with its index runs. -/
def checkSameLogic (columns : List Column) : Except String (Nat × List (List Nat)) :=
  match orIndexesOf columns.dropLast 0 with
  | .error e => .error e
  | .ok orIdx =>
    if orIdx.length = 0 then .ok (allLogicAnd, [])
    else if orIdx.length = columns.length - 1 then .ok (allLogicOr, [])
    else .ok (0, groupingIndex columns.length orIdx)

/-- Placeholder column used for out-of-range `List.getD` indexing of the
column list in the mixed branch (Go indexes the slice directly; all indexes
produced by `groupingIndex` are in range there). -/
def defaultColumn : Column := ⟨"", "", BVal.vnil, ""⟩

/-- The `allLogicAnd` loop of `convertMultiColumns` (lines 294-314): for
each column in order, check its name against the whitelist, convert it (on
a value copy — Go `range` yields copies), and collect the single-binding
pair appended to the `$and` slice; the first error aborts. -/
def buildAndPairs (wl : Option (List String)) : List Column → Except String (List (String × BVal))
  | [] => .ok []
  | c :: rest =>
    match checkName c wl with
    | some e => .error e
    | none =>
      match convert c with
      | (_, some e) => .error e
      | (c1, none) =>
        match buildAndPairs wl rest with
        | .error e => .error e
        | .ok ps => .ok ((c1.Name, c1.Value) :: ps)

/-- The `allLogicOr` loop of `convertMultiColumns` (lines 315-330) and the
inner loop of a multi-member mixed run (lines 342-350): convert each column
in order (no whitelist check appears in these loops) and collect the
single-binding pairs; the first error aborts. -/
def convertPairs : List Column → Except String (List (String × BVal))
  | [] => .ok []
  | c :: rest =>
    match convert c with
    | (_, some e) => .error e
    | (c1, none) =>
      match convertPairs rest with
      | .error e => .error e
      | .ok ps => .ok ((c1.Name, c1.Value) :: ps)

/-- The mixed-branch loop of `convertMultiColumns` (lines 332-353): each
index run of exactly one member becomes a bare predicate, any other run
becomes a `$and` sub-group of its members' predicates. -/
def buildMixedItems (columns : List Column) : List (List Nat) → Except String (List OrItem)
  | [] => .ok []
  | indexes :: rest =>
    let item :=
      match indexes with
      | [i] =>
        match convert (columns.getD i defaultColumn) with
        | (_, some e) => Except.error e
        | (c1, none) => Except.ok (OrItem.pred c1.Name c1.Value)
      | _ =>
        match convertPairs (indexes.map (fun i => columns.getD i defaultColumn)) with
        | .error e => Except.error e
        | .ok ps => Except.ok (OrItem.andG ps)
    match item with
    | .error e => .error e
    | .ok it =>
      match buildMixedItems columns rest with
      | .error e => .error e
      | .ok its => .ok (it :: its)

/-- Go method `(*Params).convertMultiColumns` (lines 288-357), as a function
of the column list and whitelist.  Go's incremental `filter["$and"]`
(`filter["$or"]`) construction leaves the filter empty when the loop adds
nothing and otherwise yields the group of all collected members; the mixed
branch always installs the `$or` key.  The receiver is never written (all
loops range over value copies), so no final state is returned. -/
def convertMultiColumns (columns : List Column) (wl : Option (List String)) :
    Option MongoFilter × Option String :=
  match checkSameLogic columns with
  | .error e => (none, some e)
  | .ok (t, groups) =>
    if t = allLogicAnd then
      match buildAndPairs wl columns with
      | .error e => (none, some e)
      | .ok ps => (some (if ps.isEmpty then .empty else .andGroup ps), none)
    else if t = allLogicOr then
      match convertPairs columns with
      | .error e => (none, some e)
      | .ok ps =>
        (some (if ps.isEmpty then .empty else .orGroup (ps.map (fun q => .pred q.1 q.2))), none)
    else
      match buildMixedItems columns groups with
      | .error e => (none, some e)
      | .ok items => (some (.orGroup items), none)

/-- The `switch l` statement of `ConvertToMongoFilter` (lines 237-285):
the 0/1/2-column fast paths and the delegation to `convertMultiColumns`
for three or more columns.  The returned `Params` is the receiver's final
state: the fast paths write the converted columns back through
`p.Columns[i]` (mutations persist even when an error follows), while the
multi-column path leaves the receiver untouched. -/
def convertSwitch (p : Params) (wl : Option (List String)) :
    (Option MongoFilter × Option String) × Params :=
  match p.Columns with
  | [] => ((some .empty, none), p)
  | [c0] =>
    match checkName c0 wl with
    | some e => ((none, some e), p)
    | none =>
      match convert c0 with
      | (c2, some e) => ((none, some e), { p with Columns := [c2] })
      | (c2, none) => ((some (.pred c2.Name c2.Value), none), { p with Columns := [c2] })
  | [c0, c1] =>
    match checkName c0 wl with
    | some e => ((none, some e), p)
    | none =>
      match checkName c1 wl with
      | some e => ((none, some e), p)
      | none =>
        match convert c0 with
        | (c2, some e) => ((none, some e), { p with Columns := [c2, c1] })
        | (c2, none) =>
          match convert c1 with
          | (c3, some e) => ((none, some e), { p with Columns := [c2, c3] })
          | (c3, none) =>
            let filter :=
              if c2.Logic = "&" then
                MongoFilter.andGroup [(c2.Name, c2.Value), (c3.Name, c3.Value)]
              else
                MongoFilter.orGroup [.pred c2.Name c2.Value, .pred c3.Name c3.Value]
            ((some filter, none), { p with Columns := [c2, c3] })
  | _ => (convertMultiColumns p.Columns wl, p)

/-- Go method `(*Params).ConvertToMongoFilter` (lines 227-286): run the
configured `validateFn` over the raw column list first (an error aborts
before any per-column work), then dispatch on the column count. -/
def ConvertToMongoFilter (p : Params) (o : RulerOptions) :
    (Option MongoFilter × Option String) × Params :=
  match o.validateFn with
  | some vf =>
    match vf p.Columns with
    | some e => ((none, some e), p)
    | none => convertSwitch p o.whitelistNames
  | none => convertSwitch p o.whitelistNames

/-- The canonical logic symbol a raw `Logic` token normalizes to under
`convertLogic`: empty defaults to `and`, then the lower-cased token is
looked up in `logicMap`; `none` when the token is unknown. -/
def normLogic (lg : String) : Option String :=
  logicMap (toLowerStr (if lg = "" then "and" else lg))

/-- `normLogic` of a column's `Logic` field. -/
def normLogicC (c : Column) : Option String := normLogic c.Logic

/-- The single-binding predicate `bson.M{name: value}` a column contributes
after normalization: the `Name` and `Value` of the column `convert`
produces. -/
def convPair (c : Column) : String × BVal := (((convert c).1).Name, ((convert c).1).Value)

/-- Whether a value is a Go `string` (succeeds the `.(string)` type
assertion of the `in`/`nin` branch). -/
def isStr : BVal → Bool
  | .str _ => true
  | _ => false

/-- Two columns that agree on their raw name and on the error, name and
value their conversion produces; such columns are interchangeable for the
filter (not for the final column state). -/
def convEquiv (x y : Column) : Prop :=
  x.Name = y.Name ∧ (convert x).2 = (convert y).2 ∧
    ((convert x).1).Name = ((convert y).1).Name ∧
    ((convert x).1).Value = ((convert y).1).Value

theorem convEquiv_rfl (x : Column) : convEquiv x x := ⟨rfl, rfl, rfl, rfl⟩

theorem checkName_congr (x y : Column) (wl : Option (List String)) (h : x.Name = y.Name) :
    checkName x wl = checkName y wl := by
  unfold checkName
  rw [h]

theorem applyOid_spec (n e lg : String) (v : BVal) :
    applyOid ⟨n, e, v, lg⟩ =
      ⟨(match isObjectID v with
         | some _ => if n = "id" then "_id" else if n.endsWith ":oid" then n.dropRight 4 else n
         | none => n),
        e,
        (match isObjectID v with | some b => BVal.oid b | none => v),
        lg⟩ := by
  unfold applyOid
  cases h : isObjectID v
  · rfl
  · simp only []
    split_ifs <;> rfl

theorem applyExpSwitch_congr_logic (n e lg1 lg2 : String) (v : BVal) :
    applyExpSwitch ⟨n, e, v, lg1⟩ =
      ({ (applyExpSwitch ⟨n, e, v, lg2⟩).1 with Logic := lg1 },
        (applyExpSwitch ⟨n, e, v, lg2⟩).2) := by
  unfold applyExpSwitch
  split_ifs <;> try rfl
  all_goals cases v <;> rfl

theorem applyExpSwitch_fst_Name (c : Column) : ((applyExpSwitch c).1).Name = c.Name := by
  obtain ⟨n, e, v, lg⟩ := c
  unfold applyExpSwitch
  split_ifs <;> try rfl
  all_goals cases v <;> rfl

theorem applyExpSwitch_fst_Logic (c : Column) : ((applyExpSwitch c).1).Logic = c.Logic := by
  obtain ⟨n, e, v, lg⟩ := c
  unfold applyExpSwitch
  split_ifs <;> try rfl
  all_goals cases v <;> rfl

theorem convertLogic_norm (c : Column) (w : String) (h : normLogicC c = some w) :
    convertLogic c = ({ c with Logic := w }, none) := by
  unfold normLogicC normLogic at h
  unfold convertLogic
  by_cases hl : c.Logic = "" <;> simp only [hl, if_true, if_false] at h ⊢ <;> simp [h]

theorem convertLogic_none (c : Column) (h : normLogicC c = none) :
    convertLogic c = (if c.Logic = "" then { c with Logic := "and" } else c,
      some ("unknown logic type \x27" ++ (if c.Logic = "" then "and" else c.Logic) ++ "\x27")) := by
  unfold normLogicC normLogic at h
  unfold convertLogic
  by_cases hl : c.Logic = "" <;> simp only [hl, if_true, if_false] at h ⊢ <;> simp [h]

theorem applyOid_pair (n e1 e2 lg1 lg2 : String) (v : BVal) :
    ∃ N V2, applyOid ⟨n, e1, v, lg1⟩ = ⟨N, e1, V2, lg1⟩ ∧
      applyOid ⟨n, e2, v, lg2⟩ = ⟨N, e2, V2, lg2⟩ := by
  unfold applyOid
  cases isObjectID v with
  | none => exact ⟨n, v, rfl, rfl⟩
  | some b =>
    dsimp only
    split_ifs <;> exact ⟨_, _, rfl, rfl⟩

theorem convert_tail_congr (N E lg1 lg2 w1 w2 : String) (V2 : BVal)
    (hw1 : normLogic lg1 = some w1) (hw2 : normLogic lg2 = some w2) :
    (match applyExpSwitch ⟨N, E, V2, lg1⟩ with
     | (c3, some e3) => (c3, some e3)
     | (c3, none) => convertLogic c3).2 =
      (match applyExpSwitch ⟨N, E, V2, lg2⟩ with
       | (c3, some e3) => (c3, some e3)
       | (c3, none) => convertLogic c3).2 ∧
    ((match applyExpSwitch ⟨N, E, V2, lg1⟩ with
      | (c3, some e3) => (c3, some e3)
      | (c3, none) => convertLogic c3).1).Name =
      ((match applyExpSwitch ⟨N, E, V2, lg2⟩ with
        | (c3, some e3) => (c3, some e3)
        | (c3, none) => convertLogic c3).1).Name ∧
    ((match applyExpSwitch ⟨N, E, V2, lg1⟩ with
      | (c3, some e3) => (c3, some e3)
      | (c3, none) => convertLogic c3).1).Value =
      ((match applyExpSwitch ⟨N, E, V2, lg2⟩ with
        | (c3, some e3) => (c3, some e3)
        | (c3, none) => convertLogic c3).1).Value := by
  rw [applyExpSwitch_congr_logic N E lg1 lg2 V2]
  rcases hr : applyExpSwitch ⟨N, E, V2, lg2⟩ with ⟨c3, err⟩
  have hc3 : c3.Logic = lg2 := by
    have h := applyExpSwitch_fst_Logic (⟨N, E, V2, lg2⟩ : Column)
    rw [hr] at h
    exact h
  cases err with
  | some e3 => simp
  | none =>
    dsimp only
    rw [convertLogic_norm { c3 with Logic := lg1 } w1 (by simpa [normLogicC] using hw1),
      convertLogic_norm c3 w2 (by simp only [normLogicC, hc3]; exact hw2)]
    simp

theorem convert_congr_logic (n e lg1 lg2 : String) (v : BVal)
    (h1 : (normLogic lg1).isSome) (h2 : (normLogic lg2).isSome) :
    (convert ⟨n, e, v, lg1⟩).2 = (convert ⟨n, e, v, lg2⟩).2 ∧
      ((convert ⟨n, e, v, lg1⟩).1).Name = ((convert ⟨n, e, v, lg2⟩).1).Name ∧
      ((convert ⟨n, e, v, lg1⟩).1).Value = ((convert ⟨n, e, v, lg2⟩).1).Value := by
  obtain ⟨w1, hw1⟩ := Option.isSome_iff_exists.mp h1
  obtain ⟨w2, hw2⟩ := Option.isSome_iff_exists.mp h2
  obtain ⟨N, V2, hA1, hA2⟩ := applyOid_pair n e e lg1 lg2 v
  unfold convert
  have hcv : checkValid ⟨n, e, v, lg2⟩ = checkValid ⟨n, e, v, lg1⟩ := rfl
  rw [hcv]
  cases hc : checkValid ⟨n, e, v, lg1⟩ with
  | some e0 => simp
  | none =>
    dsimp only
    rw [hA1, hA2]
    dsimp only
    by_cases he : e = ""
    · simp only [he, if_pos]
      cases hm : expMap (toLowerStr "eq") with
      | none => simp
      | some w => exact convert_tail_congr N w lg1 lg2 w1 w2 V2 hw1 hw2
    · simp only [he, if_neg, if_false]
      cases hm : expMap (toLowerStr e) with
      | none => simp
      | some w => exact convert_tail_congr N w lg1 lg2 w1 w2 V2 hw1 hw2

theorem convert_of_checkValid_some (c : Column) (e0 : String) (hc : checkValid c = some e0) :
    convert c = (c, some e0) := by
  unfold convert
  rw [hc]

theorem convert_cases_pair (n e lg1 lg2 : String) (v : BVal)
    (hc : checkValid ⟨n, e, v, lg1⟩ = none) :
    ∃ N E2 V2,
      E2 = (if e = "" then "eq" else e) ∧
      applyOid ⟨n, e, v, lg1⟩ = ⟨N, e, V2, lg1⟩ ∧
      convert ⟨n, e, v, lg1⟩ =
        (match expMap (toLowerStr E2) with
         | none => ((⟨N, E2, V2, lg1⟩ : Column), some ("unsported exp type \x27" ++ E2 ++ "\x27"))
         | some w =>
           match applyExpSwitch ⟨N, w, V2, lg1⟩ with
           | (c3, some e3) => (c3, some e3)
           | (c3, none) => convertLogic c3) ∧
      convert ⟨n, e, v, lg2⟩ =
        (match expMap (toLowerStr E2) with
         | none => ((⟨N, E2, V2, lg2⟩ : Column), some ("unsported exp type \x27" ++ E2 ++ "\x27"))
         | some w =>
           match applyExpSwitch ⟨N, w, V2, lg2⟩ with
           | (c3, some e3) => (c3, some e3)
           | (c3, none) => convertLogic c3) := by
  have hc2 : checkValid ⟨n, e, v, lg2⟩ = none := hc
  obtain ⟨N, V2, hA1, hA2⟩ := applyOid_pair n e e lg1 lg2 v
  refine ⟨N, if e = "" then "eq" else e, V2, rfl, hA1, ?_, ?_⟩
  · unfold convert
    rw [hc]
    dsimp only
    rw [hA1]
    by_cases he : e = ""
    · subst he
      rfl
    · dsimp only
      simp only [if_neg he]
  · unfold convert
    rw [hc2]
    dsimp only
    rw [hA2]
    by_cases he : e = ""
    · subst he
      rfl
    · dsimp only
      simp only [if_neg he]

theorem convert_none_logic (c : Column) (h : (convert c).2 = none) :
    normLogicC c = some ((convert c).1).Logic := by
  obtain ⟨n, e, v, lg⟩ := c
  cases hc : checkValid ⟨n, e, v, lg⟩ with
  | some e0 => rw [convert_of_checkValid_some _ e0 hc] at h; simp at h
  | none =>
    obtain ⟨N, E2, V2, _, _, hconv, _⟩ := convert_cases_pair n e lg lg v hc
    rw [hconv] at h ⊢
    cases hm : expMap (toLowerStr E2) with
    | none => rw [hm] at h; simp at h
    | some w =>
      rw [hm] at h
      dsimp only at h ⊢
      rcases hr : applyExpSwitch ⟨N, w, V2, lg⟩ with ⟨c3, err⟩
      have hc3 : c3.Logic = lg := by
        have hh := applyExpSwitch_fst_Logic (⟨N, w, V2, lg⟩ : Column)
        rw [hr] at hh
        exact hh
      rw [hr] at h
      cases err with
      | some e3 => simp at h
      | none =>
        dsimp only at h ⊢
        cases hnl : normLogicC c3 with
        | none => rw [convertLogic_none c3 hnl] at h; simp at h
        | some u =>
          rw [convertLogic_norm c3 u hnl]
          simp only [normLogicC, hc3] at hnl
          simpa [normLogicC] using hnl

theorem convert_logic_alias (n e lg1 lg2 w : String) (v : BVal)
    (hw1 : normLogic lg1 = some w) (hw2 : normLogic lg2 = some w)
    (hs : (convert ⟨n, e, v, lg1⟩).2 = none) :
    convert ⟨n, e, v, lg1⟩ = convert ⟨n, e, v, lg2⟩ := by
  cases hc : checkValid ⟨n, e, v, lg1⟩ with
  | some e0 => rw [convert_of_checkValid_some _ e0 hc] at hs; simp at hs
  | none =>
    obtain ⟨N, E2, V2, _, _, hconv1, hconv2⟩ := convert_cases_pair n e lg1 lg2 v hc
    rw [hconv1] at hs ⊢
    rw [hconv2]
    cases hm : expMap (toLowerStr E2) with
    | none => rw [hm] at hs; simp at hs
    | some w0 =>
      rw [hm] at hs
      dsimp only at hs ⊢
      rw [applyExpSwitch_congr_logic N w0 lg1 lg2 V2] at hs ⊢
      rcases hr : applyExpSwitch ⟨N, w0, V2, lg2⟩ with ⟨c3, err⟩
      have hc3 : c3.Logic = lg2 := by
        have hh := applyExpSwitch_fst_Logic (⟨N, w0, V2, lg2⟩ : Column)
        rw [hr] at hh
        exact hh
      rw [hr] at hs
      cases err with
      | some e3 => simp at hs
      | none =>
        dsimp only at hs ⊢
        rw [convertLogic_norm { c3 with Logic := lg1 } w (by simpa [normLogicC] using hw1),
          convertLogic_norm c3 w (by simp only [normLogicC, hc3]; exact hw2)]

theorem convert_exp_alias (n e1 e2 lg w : String) (v : BVal)
    (hw1 : expMap (toLowerStr e1) = some w) (hw2 : expMap (toLowerStr e2) = some w)
    (he1 : e1 ≠ "") (he2 : e2 ≠ "") (hcv : checkValid ⟨n, e1, v, lg⟩ = none) :
    convert ⟨n, e1, v, lg⟩ = convert ⟨n, e2, v, lg⟩ := by
  have hcv2 : checkValid ⟨n, e2, v, lg⟩ = none := hcv
  obtain ⟨N, V2, hA1, hA2⟩ := applyOid_pair n e1 e2 lg lg v
  unfold convert
  rw [hcv, hcv2]
  dsimp only
  rw [hA1, hA2]
  dsimp only
  simp only [if_neg he1, if_neg he2]
  rw [hw1, hw2]

theorem convEquiv_setLogic (c : Column) (lg1 lg2 : String)
    (h1 : (normLogic lg1).isSome) (h2 : (normLogic lg2).isSome) :
    convEquiv { c with Logic := lg1 } { c with Logic := lg2 } := by
  obtain ⟨n, e, v, lg⟩ := c
  exact ⟨rfl, convert_congr_logic n e lg1 lg2 v h1 h2⟩

theorem orIndexesOf_all_and (cs : List Column) (h : ∀ c ∈ cs, normLogicC c = some "&") :
    ∀ i, orIndexesOf cs i = .ok [] := by
  induction cs with
  | nil => intro i; rfl
  | cons c rest ih =>
    intro i
    have hc := h c (List.mem_cons_self c rest)
    have hrest : ∀ c2 ∈ rest, normLogicC c2 = some "&" :=
      fun c2 hm => h c2 (List.mem_cons_of_mem c hm)
    unfold orIndexesOf
    rw [convertLogic_norm c "&" hc]
    dsimp only
    rw [ih hrest (i + 1)]
    simp

theorem orIndexesOf_all_or (cs : List Column) (h : ∀ c ∈ cs, normLogicC c = some "|") :
    ∀ i, orIndexesOf cs i = .ok (List.range' i cs.length) := by
  induction cs with
  | nil => intro i; rfl
  | cons c rest ih =>
    intro i
    have hc := h c (List.mem_cons_self c rest)
    have hrest : ∀ c2 ∈ rest, normLogicC c2 = some "|" :=
      fun c2 hm => h c2 (List.mem_cons_of_mem c hm)
    unfold orIndexesOf
    rw [convertLogic_norm c "|" hc]
    dsimp only
    rw [ih hrest (i + 1)]
    simp [List.range']

theorem buildAndPairs_ok (wl : Option (List String)) (cs : List Column)
    (ps : List (String × BVal)) (h : buildAndPairs wl cs = .ok ps) :
    ps = cs.map convPair := by
  induction cs generalizing ps with
  | nil =>
    unfold buildAndPairs at h
    simp only [Except.ok.injEq] at h
    simp [← h]
  | cons c rest ih =>
    unfold buildAndPairs at h
    cases hn : checkName c wl with
    | some e => rw [hn] at h; simp at h
    | none =>
      rw [hn] at h
      dsimp only at h
      rcases hcv : convert c with ⟨c1, err⟩
      rw [hcv] at h
      cases err with
      | some e => simp at h
      | none =>
        dsimp only at h
        cases hr : buildAndPairs wl rest with
        | error e => rw [hr] at h; simp at h
        | ok ps2 =>
          rw [hr] at h
          simp only [Except.ok.injEq] at h
          subst h
          simp only [List.map_cons]
          have hp : convPair c = (c1.Name, c1.Value) := by simp [convPair, hcv]
          rw [hp, ih ps2 hr]

theorem convertPairs_ok (cs : List Column) (ps : List (String × BVal))
    (h : convertPairs cs = .ok ps) : ps = cs.map convPair := by
  induction cs generalizing ps with
  | nil =>
    unfold convertPairs at h
    simp only [Except.ok.injEq] at h
    simp [← h]
  | cons c rest ih =>
    unfold convertPairs at h
    rcases hcv : convert c with ⟨c1, err⟩
    rw [hcv] at h
    cases err with
    | some e => simp at h
    | none =>
      dsimp only at h
      cases hr : convertPairs rest with
      | error e => rw [hr] at h; simp at h
      | ok ps2 =>
        rw [hr] at h
        simp only [Except.ok.injEq] at h
        subst h
        simp only [List.map_cons]
        have hp : convPair c = (c1.Name, c1.Value) := by simp [convPair, hcv]
        rw [hp, ih ps2 hr]

theorem buildAndPairs_congr_last (wl : Option (List String)) (a b : Column) (h : convEquiv a b) :
    ∀ cs, buildAndPairs wl (cs ++ [a]) = buildAndPairs wl (cs ++ [b]) := by
  intro cs
  induction cs with
  | nil =>
    simp only [List.nil_append]
    unfold buildAndPairs
    rw [checkName_congr a b wl h.1]
    cases hn : checkName b wl with
    | some e => rfl
    | none =>
      dsimp only
      rcases ha : convert a with ⟨a1, ea⟩
      rcases hb : convert b with ⟨b1, eb⟩
      have he : ea = eb := by
        have hh := h.2.1
        rw [ha, hb] at hh
        exact hh
      subst he
      cases ea with
      | some e => rfl
      | none =>
        dsimp only
        have h1 : a1.Name = b1.Name := by
          have hh := h.2.2.1
          rw [ha, hb] at hh
          exact hh
        have h2 : a1.Value = b1.Value := by
          have hh := h.2.2.2
          rw [ha, hb] at hh
          exact hh
        rw [h1, h2]
  | cons c rest ih =>
    simp only [List.cons_append]
    unfold buildAndPairs
    cases hn : checkName c wl with
    | some e => rfl
    | none =>
      dsimp only
      rcases hc : convert c with ⟨c1, ec⟩
      cases ec with
      | some e => rfl
      | none =>
        dsimp only
        rw [ih]

theorem convertPairs_congr_last (a b : Column) (h : convEquiv a b) :
    ∀ cs, convertPairs (cs ++ [a]) = convertPairs (cs ++ [b]) := by
  intro cs
  induction cs with
  | nil =>
    simp only [List.nil_append]
    unfold convertPairs
    rcases ha : convert a with ⟨a1, ea⟩
    rcases hb : convert b with ⟨b1, eb⟩
    have he : ea = eb := by
      have hh := h.2.1
      rw [ha, hb] at hh
      exact hh
    subst he
    cases ea with
    | some e => rfl
    | none =>
      dsimp only
      have h1 : a1.Name = b1.Name := by
        have hh := h.2.2.1
        rw [ha, hb] at hh
        exact hh
      have h2 : a1.Value = b1.Value := by
        have hh := h.2.2.2
        rw [ha, hb] at hh
        exact hh
      rw [h1, h2]
  | cons c rest ih =>
    simp only [List.cons_append]
    unfold convertPairs
    rcases hc : convert c with ⟨c1, ec⟩
    cases ec with
    | some e => rfl
    | none =>
      dsimp only
      rw [ih]

theorem getD_append_last (a b : Column) (h : convEquiv a b) (cs : List Column) (i : Nat) :
    convEquiv ((cs ++ [a]).getD i defaultColumn) ((cs ++ [b]).getD i defaultColumn) := by
  induction cs generalizing i with
  | nil =>
    cases i with
    | zero => simpa using h
    | succ j =>
      simp only [List.nil_append, List.getD_cons_succ, List.getD_nil]
      exact convEquiv_rfl _
  | cons c rest ih =>
    cases i with
    | zero =>
      simp only [List.cons_append, List.getD_cons_zero]
      exact convEquiv_rfl c
    | succ j =>
      simp only [List.cons_append, List.getD_cons_succ]
      exact ih j

theorem convertPairs_map_congr (f g : Nat → Column) (h : ∀ i, convEquiv (f i) (g i)) :
    ∀ idx : List Nat, convertPairs (idx.map f) = convertPairs (idx.map g) := by
  intro idx
  induction idx with
  | nil => rfl
  | cons i rest ih =>
    simp only [List.map_cons]
    unfold convertPairs
    rcases hf : convert (f i) with ⟨c1, e1⟩
    rcases hg : convert (g i) with ⟨c2, e2⟩
    have he : e1 = e2 := by
      have hh := (h i).2.1
      rw [hf, hg] at hh
      exact hh
    subst he
    cases e1 with
    | some e => rfl
    | none =>
      dsimp only
      rw [ih]
      cases hcp : convertPairs (rest.map g) with
      | error e => rfl
      | ok ps =>
        dsimp only
        have h1 : c1.Name = c2.Name := by
          have hh := (h i).2.2.1
          rw [hf, hg] at hh
          exact hh
        have h2 : c1.Value = c2.Value := by
          have hh := (h i).2.2.2
          rw [hf, hg] at hh
          exact hh
        rw [h1, h2]

theorem buildMixedItems_congr (cols1 cols2 : List Column)
    (h : ∀ i, convEquiv (cols1.getD i defaultColumn) (cols2.getD i defaultColumn)) :
    ∀ groups, buildMixedItems cols1 groups = buildMixedItems cols2 groups := by
  intro groups
  induction groups with
  | nil => rfl
  | cons idx rest ih =>
    unfold buildMixedItems
    rcases idx with _ | ⟨i, _ | ⟨j, t⟩⟩
    · dsimp only
      simp only [List.map_nil]
      rw [ih]
    · dsimp only
      rcases h1 : convert (cols1.getD i defaultColumn) with ⟨c1, e1⟩
      rcases h2 : convert (cols2.getD i defaultColumn) with ⟨c2, e2⟩
      have he : e1 = e2 := by
        have hh := (h i).2.1
        rw [h1, h2] at hh
        exact hh
      subst he
      cases e1 with
      | some e => rfl
      | none =>
        dsimp only
        have hn : c1.Name = c2.Name := by
          have hh := (h i).2.2.1
          rw [h1, h2] at hh
          exact hh
        have hv : c1.Value = c2.Value := by
          have hh := (h i).2.2.2
          rw [h1, h2] at hh
          exact hh
        rw [hn, hv, ih]
    · dsimp only
      rw [convertPairs_map_congr (fun k => cols1.getD k defaultColumn)
        (fun k => cols2.getD k defaultColumn) h (i :: j :: t)]
      cases hcp : convertPairs ((i :: j :: t).map fun k => cols2.getD k defaultColumn) with
      | error e => rfl
      | ok ps =>
        dsimp only
        rw [ih]

theorem checkSameLogic_concat (a b : Column) (cs : List Column) :
    checkSameLogic (cs ++ [a]) = checkSameLogic (cs ++ [b]) := by
  unfold checkSameLogic
  rw [List.dropLast_concat, List.dropLast_concat]
  have hlen : (cs ++ [a]).length = (cs ++ [b]).length := by simp
  rw [hlen]

theorem convertMultiColumns_congr_last (wl : Option (List String)) (a b : Column)
    (cs : List Column) (h : convEquiv a b) :
    convertMultiColumns (cs ++ [a]) wl = convertMultiColumns (cs ++ [b]) wl := by
  unfold convertMultiColumns
  rw [checkSameLogic_concat a b cs]
  cases hcs : checkSameLogic (cs ++ [b]) with
  | error e => rfl
  | ok tg =>
    rcases tg with ⟨t, groups⟩
    dsimp only
    split
    · rw [buildAndPairs_congr_last wl a b h cs]
    · split
      · rw [convertPairs_congr_last a b h cs]
      · rw [buildMixedItems_congr (cs ++ [a]) (cs ++ [b]) (getD_append_last a b h cs) groups]

theorem convertMultiColumns_excl (cols : List Column) (wl : Option (List String)) :
    (convertMultiColumns cols wl).1 = none ∨ (convertMultiColumns cols wl).2 = none := by
  unfold convertMultiColumns
  repeat' split
  all_goals first | exact Or.inl rfl | exact Or.inr rfl

theorem convertSwitch_excl (p : Params) (wl : Option (List String)) :
    ((convertSwitch p wl).1).1 = none ∨ ((convertSwitch p wl).1).2 = none := by
  unfold convertSwitch
  repeat' split
  all_goals first
    | exact Or.inl rfl
    | exact Or.inr rfl
    | exact convertMultiColumns_excl p.Columns wl

/-- C1.  For every column list with mixed logic, the claim states that
`ConvertToMongoFilter` partitions the columns into contiguous runs in which
each OR-marked column ends its run inclusively and the next run starts
immediately after it, so that no column appears in two runs and every
column appears in one.  The code's `groupingIndex` violates this: with
three columns whose internal logic is `[or, and]` it produces the runs
`[[0], [2]]`, silently dropping column 1 from the filter, and with OR
marks at indexes 1 and 3 of five columns it produces
`[[0,1], [1,2,3], [4]]`, putting column 1 into two runs.  The full
pipeline consequently returns `$or: [{a:1}, {c:3}]` for the three-column
input, with no trace of column `b`. -/
theorem c1_grouping_runs_violated :
    groupingIndex 3 [0] = [[0], [2]] ∧
    groupingIndex 5 [1, 3] = [[0, 1], [1, 2, 3], [4]] ∧
    (ConvertToMongoFilter
        ⟨0, 0, "",
          [⟨"a", "", .int 1, "or"⟩, ⟨"b", "", .int 2, "and"⟩, ⟨"c", "", .int 3, "and"⟩], 0⟩
        ⟨none, none⟩).1 =
      (some (.orGroup [.pred "a" (.int 1), .pred "c" (.int 3)]), none) :=
  ⟨by decide, by decide, by decide⟩

/-- C2.  The claim states that every column's name is checked against a
configured whitelist, whatever the logic pattern.  The code only performs
the whitelist check in the 0/1/2-column fast paths and in the all-AND
branch of `convertMultiColumns`; the all-OR (and mixed) branches never
call `checkName`.  With whitelist `{a}` and three OR-joined columns named
`b`, `c` and `d` — each individually rejected by `checkName` — the build
nevertheless succeeds and returns the `$or` filter over the disallowed
names. -/
theorem c2_whitelist_skipped_in_or_branch :
    (ConvertToMongoFilter
        ⟨0, 0, "",
          [⟨"b", "", .int 1, "or"⟩, ⟨"c", "", .int 2, "or"⟩, ⟨"d", "", .int 3, "and"⟩], 0⟩
        ⟨some ["a"], none⟩).1 =
      (some (.orGroup [.pred "b" (.int 1), .pred "c" (.int 2), .pred "d" (.int 3)]), none) ∧
    checkName ⟨"b", "", .int 1, "or"⟩ (some ["a"]) ≠ none ∧
    checkName ⟨"c", "", .int 2, "or"⟩ (some ["a"]) ≠ none ∧
    checkName ⟨"d", "", .int 3, "and"⟩ (some ["a"]) ≠ none :=
  ⟨by decide, by decide, by decide, by decide⟩

/-- C5.  Whenever `ConvertToMongoFilter` reports an error the filter
component of its result is `nil`; and a configured `validateFn` runs on
the raw column list first, its error aborting the whole call before any
per-column work (the returned `Params` state is the untouched input). -/
theorem c5_error_nil_filter_validate_first (p : Params) (o : RulerOptions) :
    ((((ConvertToMongoFilter p o).1).2).isSome →
      ((ConvertToMongoFilter p o).1).1 = none) ∧
    (∀ vf e, o.validateFn = some vf → vf p.Columns = some e →
      ConvertToMongoFilter p o = ((none, some e), p)) := by
  constructor
  · intro h
    unfold ConvertToMongoFilter at h ⊢
    rcases o with ⟨wl, vf⟩
    cases vf with
    | none =>
      dsimp only at h ⊢
      rcases convertSwitch_excl p wl with h1 | h1
      · exact h1
      · rw [h1] at h
        simp at h
    | some f =>
      dsimp only at h ⊢
      cases hv : f p.Columns with
      | some e => rfl
      | none =>
        rw [hv] at h
        dsimp only at h ⊢
        rcases convertSwitch_excl p wl with h1 | h1
        · exact h1
        · rw [h1] at h
          simp at h
  · intro vf e hvf hve
    unfold ConvertToMongoFilter
    rw [hvf]
    dsimp only
    rw [hve]

/-- Witness for C5 at a concrete input: a validate hook that rejects makes
the call return `(nil, error)` with the input untouched. -/
theorem c5_error_nil_filter_validate_first_witness :
    ConvertToMongoFilter ⟨0, 0, "", [⟨"a", "", .int 1, ""⟩], 0⟩
        ⟨none, some (fun _ => some "rejected")⟩ =
      ((none, some "rejected"), ⟨0, 0, "", [⟨"a", "", .int 1, ""⟩], 0⟩) :=
  (c5_error_nil_filter_validate_first ⟨0, 0, "", [⟨"a", "", .int 1, ""⟩], 0⟩
    ⟨none, some (fun _ => some "rejected")⟩).2 (fun _ => some "rejected") "rejected" rfl rfl

/-- C3 counterexample.  The claim states that the last column's Logic
never influences success or failure and that an unrecognized logic token on
the last column still succeeds.  But `convert` — which runs on every
column, the last included — validates the token: a single-column list
(whose only column is the last) carrying logic `xor` makes the whole build
fail, returning a nil filter and the unknown-logic error. -/
theorem c3_counterexample_last_logic_validated :
    (ConvertToMongoFilter ⟨0, 0, "", [⟨"a", "", .int 1, "xor"⟩], 0⟩ ⟨none, none⟩).1 =
      (none, some "unknown logic type \x27xor\x27") :=
  by decide

/-- C3 amended.  The last column's Logic value never influences the
returned filter/error pair as long as it normalizes successfully: two
column lists differing only in the last column's Logic, both values known
to `logicMap` (or empty), produce identical results under any whitelist
and no validate hook.  (An unrecognized token on the last column is still
an error, and a validate hook could inspect the raw Logic itself.) -/
theorem c3_last_logic_result_irrelevant (page limit size : Int) (sort : String)
    (cs : List Column) (c : Column) (lg1 lg2 : String) (wl : Option (List String))
    (h1 : (normLogic lg1).isSome) (h2 : (normLogic lg2).isSome) :
    (ConvertToMongoFilter ⟨page, limit, sort, cs ++ [{ c with Logic := lg1 }], size⟩
        ⟨wl, none⟩).1 =
      (ConvertToMongoFilter ⟨page, limit, sort, cs ++ [{ c with Logic := lg2 }], size⟩
        ⟨wl, none⟩).1 := by
  have heq := convEquiv_setLogic c lg1 lg2 h1 h2
  rcases cs with _ | ⟨c0, _ | ⟨c1, rest⟩⟩
  · simp only [List.nil_append]
    unfold ConvertToMongoFilter convertSwitch
    dsimp only
    rw [checkName_congr { c with Logic := lg1 } { c with Logic := lg2 } wl heq.1]
    cases hn : checkName { c with Logic := lg2 } wl with
    | some e => rfl
    | none =>
      dsimp only
      rcases ha : convert { c with Logic := lg1 } with ⟨a1, ea⟩
      rcases hb : convert { c with Logic := lg2 } with ⟨b1, eb⟩
      have he : ea = eb := by
        have hh := heq.2.1
        rw [ha, hb] at hh
        exact hh
      subst he
      cases ea with
      | some e => rfl
      | none =>
        dsimp only
        have hn1 : a1.Name = b1.Name := by
          have hh := heq.2.2.1
          rw [ha, hb] at hh
          exact hh
        have hv1 : a1.Value = b1.Value := by
          have hh := heq.2.2.2
          rw [ha, hb] at hh
          exact hh
        rw [hn1, hv1]
  · simp only [List.cons_append, List.nil_append]
    unfold ConvertToMongoFilter convertSwitch
    dsimp only
    cases hn0 : checkName c0 wl with
    | some e => rfl
    | none =>
      dsimp only
      rw [checkName_congr { c with Logic := lg1 } { c with Logic := lg2 } wl heq.1]
      cases hn : checkName { c with Logic := lg2 } wl with
      | some e => rfl
      | none =>
        dsimp only
        rcases h0 : convert c0 with ⟨d1, e0⟩
        cases e0 with
        | some e => rfl
        | none =>
          dsimp only
          rcases ha : convert { c with Logic := lg1 } with ⟨a1, ea⟩
          rcases hb : convert { c with Logic := lg2 } with ⟨b1, eb⟩
          have he : ea = eb := by
            have hh := heq.2.1
            rw [ha, hb] at hh
            exact hh
          subst he
          cases ea with
          | some e => rfl
          | none =>
            dsimp only
            have hn1 : a1.Name = b1.Name := by
              have hh := heq.2.2.1
              rw [ha, hb] at hh
              exact hh
            have hv1 : a1.Value = b1.Value := by
              have hh := heq.2.2.2
              rw [ha, hb] at hh
              exact hh
            rw [hn1, hv1]
  · obtain ⟨d1, ds1, hd1⟩ : ∃ d ds, rest ++ [{ c with Logic := lg1 }] = d :: ds := by
      cases rest <;> exact ⟨_, _, rfl⟩
    obtain ⟨d2, ds2, hd2⟩ : ∃ d ds, rest ++ [{ c with Logic := lg2 }] = d :: ds := by
      cases rest <;> exact ⟨_, _, rfl⟩
    simp only [List.cons_append]
    unfold ConvertToMongoFilter convertSwitch
    rw [hd1, hd2]
    dsimp only
    rw [← hd1, ← hd2]
    have := convertMultiColumns_congr_last wl { c with Logic := lg1 } { c with Logic := lg2 }
      (c0 :: c1 :: rest) heq
    simpa [List.cons_append] using this

/-- Witness for C3: swapping the last column's Logic between `or` and
`and` leaves the two-column result unchanged. -/
theorem c3_last_logic_result_irrelevant_witness :
    (ConvertToMongoFilter
        ⟨0, 0, "",
          [⟨"a", "", .int 1, ""⟩] ++ [{ (⟨"b", "", .int 2, ""⟩ : Column) with Logic := "or" }],
          0⟩ ⟨none, none⟩).1 =
      (ConvertToMongoFilter
        ⟨0, 0, "",
          [⟨"a", "", .int 1, ""⟩] ++ [{ (⟨"b", "", .int 2, ""⟩ : Column) with Logic := "and" }],
          0⟩ ⟨none, none⟩).1 :=
  c3_last_logic_result_irrelevant 0 0 0 "" [⟨"a", "", .int 1, ""⟩] ⟨"b", "", .int 2, ""⟩
    "or" "and" none (by decide) (by decide)

theorem convertMultiColumns_single (c : Column) (wl : Option (List String)) :
    convertMultiColumns [c] wl =
      (match checkName c wl with
       | some e => (none, some e)
       | none =>
         match convert c with
         | (_, some e) => (none, some e)
         | (c1, none) => (some (.andGroup [(c1.Name, c1.Value)]), none)) := by
  have hcs : checkSameLogic [c] = .ok (allLogicAnd, []) := rfl
  unfold convertMultiColumns
  rw [hcs]
  dsimp only
  rw [if_pos rfl]
  unfold buildAndPairs
  cases hn : checkName c wl with
  | some e => rfl
  | none =>
    dsimp only
    rcases hc : convert c with ⟨c1, err⟩
    cases err with
    | some e => rfl
    | none => rfl

/-- C4 counterexample.  The claim states that the 0/1/2-column fast paths
of `ConvertToMongoFilter` produce results identical to the general
algorithm `convertMultiColumns`.  At one column the fast path returns the
bare predicate `{a: 1}` while the general algorithm wraps it as
`{$and: [{a: 1}]}`; at two columns with OR logic and a whitelist the fast
path rejects a non-whitelisted name while the general algorithm (which
skips `checkName` in its all-OR branch) succeeds. -/
theorem c4_counterexample_fast_path_differs :
    (ConvertToMongoFilter ⟨0, 0, "", [⟨"a", "", .int 1, ""⟩], 0⟩ ⟨none, none⟩).1 =
      (some (.pred "a" (.int 1)), none) ∧
    convertMultiColumns [⟨"a", "", .int 1, ""⟩] none =
      (some (.andGroup [("a", .int 1)]), none) ∧
    (ConvertToMongoFilter ⟨0, 0, "", [⟨"a", "", .int 1, ""⟩], 0⟩ ⟨none, none⟩).1 ≠
      convertMultiColumns [⟨"a", "", .int 1, ""⟩] none ∧
    (((ConvertToMongoFilter ⟨0, 0, "", [⟨"b", "", .int 1, "or"⟩, ⟨"c", "", .int 2, ""⟩], 0⟩
        ⟨some ["a"], none⟩).1).2).isSome = true ∧
    (convertMultiColumns [⟨"b", "", .int 1, "or"⟩, ⟨"c", "", .int 2, ""⟩] (some ["a"])).2 =
      none :=
  ⟨by decide, by decide, by decide, by decide, by decide⟩

/-- C4 amended.  Only the zero-column fast path is identical to the
general algorithm (both return the empty filter with no error).  At one
column the two agree on every error, but a successful bare predicate
`{n: v}` of the fast path corresponds to the one-element AND-group
`{$and: [{n: v}]}` of the general algorithm; at two columns the results
can differ further (see the counterexample). -/
theorem c4_fast_path_small_sizes (page limit size : Int) (sort : String)
    (wl : Option (List String)) (c : Column) :
    ((ConvertToMongoFilter ⟨page, limit, sort, [], size⟩ ⟨wl, none⟩).1 = (some .empty, none) ∧
      convertMultiColumns [] wl = (some .empty, none)) ∧
    (∀ e, (ConvertToMongoFilter ⟨page, limit, sort, [c], size⟩ ⟨wl, none⟩).1 = (none, some e) →
      convertMultiColumns [c] wl = (none, some e)) ∧
    (∀ n v,
      (ConvertToMongoFilter ⟨page, limit, sort, [c], size⟩ ⟨wl, none⟩).1 =
        (some (.pred n v), none) →
      convertMultiColumns [c] wl = (some (.andGroup [(n, v)]), none)) := by
  refine ⟨⟨rfl, rfl⟩, ?_, ?_⟩
  · intro e h
    rw [convertMultiColumns_single c wl]
    unfold ConvertToMongoFilter convertSwitch at h
    dsimp only at h
    cases hn : checkName c wl with
    | some e2 =>
      rw [hn] at h
      dsimp only at h
      simp only [Prod.mk.injEq, Option.some.injEq] at h
      rw [h.2]
    | none =>
      rw [hn] at h
      dsimp only at h
      rcases hc : convert c with ⟨c1, err⟩
      rw [hc] at h
      cases err with
      | some e2 =>
        dsimp only at h
        simp only [Prod.mk.injEq, Option.some.injEq] at h
        rw [h.2]
      | none => simp at h
  · intro n v h
    rw [convertMultiColumns_single c wl]
    unfold ConvertToMongoFilter convertSwitch at h
    dsimp only at h
    cases hn : checkName c wl with
    | some e2 => rw [hn] at h; simp at h
    | none =>
      rw [hn] at h
      dsimp only at h
      rcases hc : convert c with ⟨c1, err⟩
      rw [hc] at h
      cases err with
      | some e2 => simp at h
      | none =>
        dsimp only at h ⊢
        simp only [Prod.mk.injEq, Option.some.injEq, MongoFilter.pred.injEq] at h
        rw [h.1.1, h.1.2]

/-- Witness for C4: at the empty and one-column inputs discharging each
hypothesis concretely. -/
theorem c4_fast_path_small_sizes_witness :
    convertMultiColumns [(⟨"a", "", .int 1, ""⟩ : Column)] none =
      (some (.andGroup [("a", .int 1)]), none) :=
  (c4_fast_path_small_sizes 0 0 0 "" none ⟨"a", "", .int 1, ""⟩).2.2 "a" (.int 1) (by decide)

theorem convertSwitch_state (p : Params) (wl : Option (List String)) :
    ((convertSwitch p wl).2.Page = p.Page ∧ (convertSwitch p wl).2.Limit = p.Limit ∧
      (convertSwitch p wl).2.SortStr = p.SortStr ∧ (convertSwitch p wl).2.Size = p.Size) ∧
    (3 ≤ p.Columns.length → (convertSwitch p wl).2 = p) ∧
    (∀ c, p.Columns = [c] → (((convertSwitch p wl).1).2 = none →
      (convertSwitch p wl).2.Columns = [(convert c).1])) ∧
    (∀ c0 c1, p.Columns = [c0, c1] → (((convertSwitch p wl).1).2 = none →
      (convertSwitch p wl).2.Columns = [(convert c0).1, (convert c1).1])) := by
  obtain ⟨page, limit, srt, cols, size⟩ := p
  rcases cols with _ | ⟨c0, _ | ⟨c1, rest⟩⟩
  · exact ⟨⟨rfl, rfl, rfl, rfl⟩, fun h => by simp at h, fun c hc => by simp at hc,
      fun a b hc => by simp at hc⟩
  · unfold convertSwitch
    dsimp only
    cases hn : checkName c0 wl with
    | some e =>
      refine ⟨⟨rfl, rfl, rfl, rfl⟩, fun h => by simp at h, ?_, fun a b hc => by simp at hc⟩
      intro c hc hsucc
      simp at hsucc
    | none =>
      dsimp only
      rcases h0 : convert c0 with ⟨c2, err⟩
      cases err with
      | some e =>
        refine ⟨⟨rfl, rfl, rfl, rfl⟩, fun h => by simp at h, ?_, fun a b hc => by simp at hc⟩
        intro c hc hsucc
        simp at hsucc
      | none =>
        refine ⟨⟨rfl, rfl, rfl, rfl⟩, fun h => by simp at h, ?_, fun a b hc => by simp at hc⟩
        intro c hc _
        simp only [List.cons.injEq, and_true] at hc
        subst hc
        dsimp only
        rw [h0]
  · rcases rest with _ | ⟨r0, rs⟩
    · unfold convertSwitch
      dsimp only
      cases hn0 : checkName c0 wl with
      | some e =>
        refine ⟨⟨rfl, rfl, rfl, rfl⟩, fun h => by simp at h, fun c hc => by simp at hc, ?_⟩
        intro a b hc hsucc
        simp at hsucc
      | none =>
        dsimp only
        cases hn1 : checkName c1 wl with
        | some e =>
          refine ⟨⟨rfl, rfl, rfl, rfl⟩, fun h => by simp at h, fun c hc => by simp at hc, ?_⟩
          intro a b hc hsucc
          simp at hsucc
        | none =>
          dsimp only
          rcases h0 : convert c0 with ⟨c2, err0⟩
          cases err0 with
          | some e =>
            refine ⟨⟨rfl, rfl, rfl, rfl⟩, fun h => by simp at h, fun c hc => by simp at hc, ?_⟩
            intro a b hc hsucc
            simp at hsucc
          | none =>
            dsimp only
            rcases h1 : convert c1 with ⟨c3, err1⟩
            cases err1 with
            | some e =>
              refine ⟨⟨rfl, rfl, rfl, rfl⟩, fun h => by simp at h, fun c hc => by simp at hc, ?_⟩
              intro a b hc hsucc
              simp at hsucc
            | none =>
              refine ⟨⟨rfl, rfl, rfl, rfl⟩, fun h => by simp at h,
                fun c hc => by simp at hc, ?_⟩
              intro a b hc _
              simp only [List.cons.injEq, and_true] at hc
              obtain ⟨ha, hb⟩ := hc
              subst ha
              subst hb
              dsimp only
              rw [h0, h1]
    · unfold convertSwitch
      dsimp only
      exact ⟨⟨rfl, rfl, rfl, rfl⟩, fun _ => rfl, fun c hc => by simp at hc,
        fun a b hc => by simp at hc⟩

/-- C6 counterexample.  The claim states that on success every input
column has been mutated in place to its normalized form.  For a list of
three columns Go ranges over value copies, so the caller's columns are
left raw: the build succeeds, the returned receiver state equals the
input, yet normalization would have rewritten each column (for `gt` the
`Exp` becomes `>` and the `Value` is wrapped). -/
theorem c6_counterexample_no_mutation_three_columns :
    ConvertToMongoFilter
        ⟨0, 0, "",
          [⟨"a", "gt", .int 1, "and"⟩, ⟨"b", "gt", .int 2, "and"⟩, ⟨"c", "gt", .int 3, "and"⟩],
          0⟩ ⟨none, none⟩ =
      ((some (.andGroup
          [("a", .mGt (.int 1)), ("b", .mGt (.int 2)), ("c", .mGt (.int 3))]), none),
        ⟨0, 0, "",
          [⟨"a", "gt", .int 1, "and"⟩, ⟨"b", "gt", .int 2, "and"⟩, ⟨"c", "gt", .int 3, "and"⟩],
          0⟩) ∧
    (convert ⟨"a", "gt", .int 1, "and"⟩).1 = ⟨"a", ">", .mGt (.int 1), "&"⟩ ∧
    (⟨"a", "gt", .int 1, "and"⟩ : Column) ≠ ⟨"a", ">", .mGt (.int 1), "&"⟩ :=
  ⟨by decide, by decide, by decide⟩

/-- C6 amended.  `ConvertToMongoFilter` never touches the `Page`, `Limit`,
`Sort` or `Size` fields; for lists of three or more columns the receiver is
returned untouched (the loops range over value copies, so the caller's
columns are NOT normalized in place); only the one- and two-column fast
paths write the normalized columns back into the caller's list. -/
theorem c6_mutation_scope (p : Params) (o : RulerOptions) :
    ((ConvertToMongoFilter p o).2.Page = p.Page ∧
      (ConvertToMongoFilter p o).2.Limit = p.Limit ∧
      (ConvertToMongoFilter p o).2.SortStr = p.SortStr ∧
      (ConvertToMongoFilter p o).2.Size = p.Size) ∧
    (3 ≤ p.Columns.length → (ConvertToMongoFilter p o).2 = p) ∧
    (∀ c, p.Columns = [c] → (((ConvertToMongoFilter p o).1).2 = none →
      (ConvertToMongoFilter p o).2.Columns = [(convert c).1])) ∧
    (∀ c0 c1, p.Columns = [c0, c1] → (((ConvertToMongoFilter p o).1).2 = none →
      (ConvertToMongoFilter p o).2.Columns = [(convert c0).1, (convert c1).1])) := by
  rcases o with ⟨wl, vf⟩
  cases vf with
  | none => exact convertSwitch_state p wl
  | some f =>
    unfold ConvertToMongoFilter
    dsimp only
    cases hv : f p.Columns with
    | some e =>
      refine ⟨⟨rfl, rfl, rfl, rfl⟩, fun _ => rfl, ?_, ?_⟩
      · intro c hc hsucc
        simp at hsucc
      · intro a b hc hsucc
        simp at hsucc
    | none => exact convertSwitch_state p wl

/-- Witness for C6 at a concrete one-column input: the fast path does
mutate the caller's column. -/
theorem c6_mutation_scope_witness :
    (ConvertToMongoFilter ⟨0, 0, "", [⟨"a", "gt", .int 1, "and"⟩], 0⟩
        ⟨none, none⟩).2.Columns = [(convert ⟨"a", "gt", .int 1, "and"⟩).1] :=
  (c6_mutation_scope ⟨0, 0, "", [⟨"a", "gt", .int 1, "and"⟩], 0⟩ ⟨none, none⟩).2.2.1
    ⟨"a", "gt", .int 1, "and"⟩ rfl (by decide)

/-- C7.  For every column whose value is a 24-character string that parses
as a hex-encoded ObjectID, the coercion step of `convert` replaces the
value by the parsed ObjectID, rewrites the name `id` to the primary-key
field `_id`, and strips a `:oid` name suffix; with the default operator
`eq` and empty logic, `convert` as a whole returns exactly the coerced
column (operator normalized to `=`, logic to `&`) and no error. -/
theorem c7_objectid_coercion (n s : String) (bytes : List Nat)
    (hlen : s.length = 24) (hparse : objectIDFromHex s = some bytes) :
    (∀ e2 lg2 : String, applyOid ⟨n, e2, BVal.str s, lg2⟩ =
      ⟨if n = "id" then "_id" else if n.endsWith ":oid" then n.dropRight 4 else n,
        e2, BVal.oid bytes, lg2⟩) ∧
    (n ≠ "" →
      convert ⟨n, "eq", BVal.str s, ""⟩ =
        (⟨if n = "id" then "_id" else if n.endsWith ":oid" then n.dropRight 4 else n,
          "=", BVal.oid bytes, "&"⟩, none)) := by
  have hoid : isObjectID (BVal.str s) = some bytes := by
    unfold isObjectID
    dsimp only
    rw [if_pos hlen, hparse]
  have hA : ∀ e2 lg2 : String, applyOid ⟨n, e2, BVal.str s, lg2⟩ =
      ⟨if n = "id" then "_id" else if n.endsWith ":oid" then n.dropRight 4 else n,
        e2, BVal.oid bytes, lg2⟩ := by
    intro e2 lg2
    unfold applyOid
    rw [hoid]
    dsimp only
    split_ifs <;> rfl
  refine ⟨hA, ?_⟩
  intro hn
  have hcv : checkValid ⟨n, "eq", BVal.str s, ""⟩ = none := by
    unfold checkValid
    rw [if_neg hn]
    simp
  unfold convert
  rw [hcv]
  dsimp only
  rw [hA "eq" ""]
  dsimp only
  rw [if_neg (by decide : ¬("eq" = ""))]
  rw [(by decide : expMap (toLowerStr "eq") = some "=")]
  dsimp only
  have hsw : applyExpSwitch
      ⟨if n = "id" then "_id" else if n.endsWith ":oid" then n.dropRight 4 else n,
        "=", BVal.oid bytes, ""⟩ =
      (⟨if n = "id" then "_id" else if n.endsWith ":oid" then n.dropRight 4 else n,
        "=", BVal.oid bytes, ""⟩, none) := by
    unfold applyExpSwitch
    dsimp only
    simp
  rw [hsw]
  dsimp only
  rw [convertLogic_norm
    ⟨if n = "id" then "_id" else if n.endsWith ":oid" then n.dropRight 4 else n,
      "=", BVal.oid bytes, ""⟩ "&"
    (by show normLogic "" = some "&"; decide)]

/-- Witness for C7: the spec's concrete example, name `id` with value
`507f1f77bcf86cd799439011`, is rewritten to `_id` with the parsed
12-byte identifier. -/
theorem c7_objectid_coercion_witness :
    convert ⟨"id", "eq", BVal.str "507f1f77bcf86cd799439011", ""⟩ =
      (⟨if "id" = "id" then "_id"
        else if ("id" : String).endsWith ":oid" then ("id" : String).dropRight 4 else "id",
        "=", BVal.oid [80, 127, 31, 119, 188, 248, 108, 215, 153, 67, 144, 17], "&"⟩, none) :=
  (c7_objectid_coercion "id" "507f1f77bcf86cd799439011"
    [80, 127, 31, 119, 188, 248, 108, 215, 153, 67, 144, 17]
    (by decide) (by decide)).2 (by decide)

/-- C8 counterexample.  The claim quantifies over every column list; for a
single-column list the condition "every internal logic value normalizes to
AND" is vacuously true, yet the result is the bare predicate `{a: 1}`, not
a one-element `$and` group of the normalized predicates as the claim
demands (and a bare predicate is a different `bson.M` value than a
one-element `$and` group). -/
theorem c8_counterexample_single_column_bare :
    (ConvertToMongoFilter ⟨0, 0, "", [⟨"a", "", .int 1, ""⟩], 0⟩ ⟨none, none⟩).1 =
      (some (.pred "a" (.int 1)), none) ∧
    (∀ c ∈ ([⟨"a", "", .int 1, ""⟩] : List Column).dropLast, normLogicC c = some "&") ∧
    MongoFilter.pred "a" (.int 1) ≠
      MongoFilter.andGroup [convPair ⟨"a", "", .int 1, ""⟩] :=
  ⟨by decide, by decide, by decide⟩

/-- C8 amended.  For every list of at least two columns: when every
internal logic value (of all columns but the last) normalizes to AND and
the build succeeds, the filter is one `$and` group holding exactly the
normalized per-column predicates in the original order; symmetrically,
when every internal logic value normalizes to OR and the build succeeds,
the filter is one `$or` group of the normalized predicates in order. -/
theorem c8_uniform_logic_groups (p : Params) (wl : Option (List String)) (f : MongoFilter)
    (hlen : 2 ≤ p.Columns.length) :
    ((∀ c ∈ p.Columns.dropLast, normLogicC c = some "&") →
      (ConvertToMongoFilter p ⟨wl, none⟩).1 = (some f, none) →
      f = .andGroup (p.Columns.map convPair)) ∧
    ((∀ c ∈ p.Columns.dropLast, normLogicC c = some "|") →
      (ConvertToMongoFilter p ⟨wl, none⟩).1 = (some f, none) →
      f = .orGroup (p.Columns.map (fun c => .pred (convPair c).1 (convPair c).2))) := by
  obtain ⟨page, limit, srt, cols, size⟩ := p
  rcases cols with _ | ⟨c0, _ | ⟨c1, rest⟩⟩
  · simp at hlen
  · simp at hlen
  rcases rest with _ | ⟨r0, rs⟩
  · -- exactly two columns: the fast path
    constructor
    all_goals
      intro hall hres
    all_goals
      unfold ConvertToMongoFilter convertSwitch at hres
    all_goals
      dsimp only at hres
    all_goals
      have h0n := hall c0 (by simp)
    all_goals
      cases hn0 : checkName c0 wl with
      | some e => rw [hn0] at hres; simp at hres
      | none =>
        rw [hn0] at hres
        dsimp only at hres
        cases hn1 : checkName c1 wl with
        | some e => rw [hn1] at hres; simp at hres
        | none =>
          rw [hn1] at hres
          dsimp only at hres
          rcases h0 : convert c0 with ⟨c2, err0⟩
          rw [h0] at hres
          cases err0 with
          | some e => simp at hres
          | none =>
            dsimp only at hres
            rcases h1 : convert c1 with ⟨c3, err1⟩
            rw [h1] at hres
            cases err1 with
            | some e => simp at hres
            | none =>
              dsimp only at hres
              have hlogic : some c2.Logic = some ((convert c0).1).Logic := by rw [h0]
              rw [← convert_none_logic c0 (by rw [h0])] at hlogic
              rw [h0n] at hlogic
              simp only [Option.some.injEq] at hlogic
              first
              | (rw [if_pos hlogic] at hres
                 simp only [Prod.mk.injEq, Option.some.injEq] at hres
                 rw [← hres.1]
                 simp [convPair, h0, h1])
              | (rw [if_neg (show ¬c2.Logic = "&" by rw [hlogic]; decide)] at hres
                 simp only [Prod.mk.injEq, Option.some.injEq] at hres
                 rw [← hres.1]
                 simp [convPair, h0, h1])
  · -- three or more columns: convertMultiColumns
    constructor
    · intro hall hres
      unfold ConvertToMongoFilter convertSwitch at hres
      dsimp only at hres
      have hcs : checkSameLogic (c0 :: c1 :: r0 :: rs) = .ok (allLogicAnd, []) := by
        unfold checkSameLogic
        rw [orIndexesOf_all_and _ hall 0]
        rfl
      unfold convertMultiColumns at hres
      rw [hcs] at hres
      dsimp only at hres
      rw [if_pos rfl] at hres
      cases hb : buildAndPairs wl (c0 :: c1 :: r0 :: rs) with
      | error e => rw [hb] at hres; simp at hres
      | ok ps =>
        rw [hb] at hres
        dsimp only at hres
        have hps := buildAndPairs_ok wl _ ps hb
        subst hps
        simp only [List.map_cons, List.isEmpty_cons] at hres
        simp only [Bool.false_eq_true, if_false, Prod.mk.injEq, Option.some.injEq] at hres
        rw [← hres.1]
        simp
    · intro hall hres
      unfold ConvertToMongoFilter convertSwitch at hres
      dsimp only at hres
      have hcs : checkSameLogic (c0 :: c1 :: r0 :: rs) = .ok (allLogicOr, []) := by
        unfold checkSameLogic
        rw [orIndexesOf_all_or _ hall 0]
        dsimp only
        rw [if_neg (by simp [List.length_range']), if_pos (by simp [List.length_range'])]
      unfold convertMultiColumns at hres
      rw [hcs] at hres
      dsimp only at hres
      rw [if_neg (by decide), if_pos rfl] at hres
      cases hb : convertPairs (c0 :: c1 :: r0 :: rs) with
      | error e => rw [hb] at hres; simp at hres
      | ok ps =>
        rw [hb] at hres
        dsimp only at hres
        have hps := convertPairs_ok _ ps hb
        subst hps
        simp only [List.map_cons, List.isEmpty_cons] at hres
        simp only [Bool.false_eq_true, if_false, Prod.mk.injEq, Option.some.injEq] at hres
        rw [← hres.1]
        simp

/-- Witness for C8 at concrete inputs: three AND-joined columns produce the
`$and` group of the normalized predicates in order. -/
theorem c8_uniform_logic_groups_witness :
    MongoFilter.andGroup
        [("a", BVal.int 1), ("b", BVal.int 2), ("c", BVal.int 3)] =
      MongoFilter.andGroup
        (([⟨"a", "", .int 1, "and"⟩, ⟨"b", "", .int 2, "and"⟩,
          ⟨"c", "", .int 3, "and"⟩] : List Column).map convPair) :=
  (c8_uniform_logic_groups
    ⟨0, 0, "", [⟨"a", "", .int 1, "and"⟩, ⟨"b", "", .int 2, "and"⟩, ⟨"c", "", .int 3, "and"⟩], 0⟩
    none (MongoFilter.andGroup [("a", BVal.int 1), ("b", BVal.int 2), ("c", BVal.int 3)])
    (by decide)).1 (by decide) (by decide)

theorem isObjectID_nonstr (v : BVal) (h : isStr v = false) : isObjectID v = none := by
  cases v <;> first | rfl | simp [isStr] at h

/-- C9 counterexample.  The claim says a column with an in-set operator
and a string value has the string split on commas; but a 24-character hex
string is coerced to an ObjectID by the identifier-coercion step before
the operator switch, so the `.(string)` type assertion then fails: the
value IS a string yet `convert` reports the invalid-value-type error. -/
theorem c9_counterexample_oid_string_rejected :
    ((convert ⟨"a", "in", BVal.str "507f1f77bcf86cd799439011", "and"⟩).2).isSome = true ∧
    isStr (BVal.str "507f1f77bcf86cd799439011") = true ∧
    (convert ⟨"a", "in", BVal.str "507f1f77bcf86cd799439011", "and"⟩).1.Value =
      BVal.oid [80, 127, 31, 119, 188, 248, 108, 215, 153, 67, 144, 17] :=
  ⟨by decide, by decide, by decide⟩

/-- C9 amended.  For a column whose operator token normalizes to `in` or
`nin` and whose name is non-empty: if the value is not a string (but also
not nil, which the earlier `checkValid` step rejects with a different
error), or is a string that the identifier-coercion step converts to an
ObjectID, `convert` fails with the invalid-value-type error; if the value
is a string not coerced to an ObjectID and the logic token is valid, the
string is split on commas and wrapped as a `$in` (respectively `$nin`)
list, and `convert` succeeds. -/
theorem c9_in_set_value_rule (n e lg : String) (v : BVal) (w : String)
    (hn : n ≠ "") (hw : expMap (toLowerStr e) = some w) (hin : w = "in" ∨ w = "nin") :
    ((isStr v = false ∧ v ≠ BVal.vnil) ∨ (isObjectID v).isSome →
      ((convert ⟨n, e, v, lg⟩).2).isSome = true) ∧
    (∀ s, v = BVal.str s → isObjectID v = none → (normLogic lg).isSome →
      (convert ⟨n, e, v, lg⟩).2 = none ∧
      ((convert ⟨n, e, v, lg⟩).1).Value =
        (if w = "in" then BVal.mIn (s.splitOn ",") else BVal.mNin (s.splitOn ","))) := by
  have he : e ≠ "" := by
    intro h
    rw [h] at hw
    rw [(by decide : expMap (toLowerStr "") = none)] at hw
    exact Option.noConfusion hw
  constructor
  · intro hcond
    have hvnil : v ≠ BVal.vnil := by
      rcases hcond with ⟨_, h⟩ | h
      · exact h
      · intro hv
        rw [hv] at h
        simp [isObjectID] at h
    have hcv : checkValid ⟨n, e, v, lg⟩ = none := by
      unfold checkValid
      dsimp only
      rw [if_neg hn, if_neg hvnil]
    obtain ⟨N, E2, V2, hE2, hA, hconv, _⟩ := convert_cases_pair n e lg lg v hcv
    have hE2e : E2 = e := by rw [hE2, if_neg he]
    subst hE2e
    rw [hconv, hw]
    dsimp only
    have hV2 : isStr V2 = false := by
      have hspec := applyOid_spec n E2 lg v
      rw [hA] at hspec
      have hV := congrArg Column.Value hspec
      dsimp only at hV
      rcases hcond with ⟨hstr, _⟩ | hoid
      · rw [isObjectID_nonstr v hstr] at hV
        dsimp only at hV
        rw [hV]
        exact hstr
      · obtain ⟨b, hb⟩ := Option.isSome_iff_exists.mp hoid
        rw [hb] at hV
        dsimp only at hV
        rw [hV]
        rfl
    rcases hin with hw1 | hw1 <;> subst hw1 <;>
      (unfold applyExpSwitch
       dsimp only
       simp only [(by decide : (("in" : String) = "!=") = False),
         (by decide : (("in" : String) = ">") = False),
         (by decide : (("in" : String) = ">=") = False),
         (by decide : (("in" : String) = "<") = False),
         (by decide : (("in" : String) = "<=") = False),
         (by decide : (("in" : String) = "like") = False),
         (by decide : (("nin" : String) = "!=") = False),
         (by decide : (("nin" : String) = ">") = False),
         (by decide : (("nin" : String) = ">=") = False),
         (by decide : (("nin" : String) = "<") = False),
         (by decide : (("nin" : String) = "<=") = False),
         (by decide : (("nin" : String) = "like") = False),
         (by decide : ((("in" : String) = "in") ∨ (("in" : String) = "nin")) = True),
         (by decide : ((("nin" : String) = "in") ∨ (("nin" : String) = "nin")) = True),
         true_or, or_true, if_false, if_true]
       cases V2 <;> first | rfl | (simp [isStr] at hV2))
  · intro s hv hoid hlg
    subst hv
    have hvnil : BVal.str s ≠ BVal.vnil := by simp
    have hcv : checkValid ⟨n, e, BVal.str s, lg⟩ = none := by
      unfold checkValid
      dsimp only
      rw [if_neg hn, if_neg hvnil]
    obtain ⟨N, E2, V2, hE2, hA, hconv, _⟩ := convert_cases_pair n e lg lg (BVal.str s) hcv
    have hE2e : E2 = e := by rw [hE2, if_neg he]
    subst hE2e
    rw [hconv, hw]
    dsimp only
    have hV2 : V2 = BVal.str s := by
      have hspec := applyOid_spec n E2 lg (BVal.str s)
      rw [hA] at hspec
      have hV := congrArg Column.Value hspec
      dsimp only at hV
      rw [hoid] at hV
      dsimp only at hV
      exact hV
    subst hV2
    obtain ⟨w2, hw2⟩ := Option.isSome_iff_exists.mp hlg
    rcases hin with hw1 | hw1 <;> subst hw1 <;>
      (unfold applyExpSwitch
       dsimp only
       simp only [(by decide : (("in" : String) = "!=") = False),
         (by decide : (("in" : String) = ">") = False),
         (by decide : (("in" : String) = ">=") = False),
         (by decide : (("in" : String) = "<") = False),
         (by decide : (("in" : String) = "<=") = False),
         (by decide : (("in" : String) = "like") = False),
         (by decide : (("nin" : String) = "!=") = False),
         (by decide : (("nin" : String) = ">") = False),
         (by decide : (("nin" : String) = ">=") = False),
         (by decide : (("nin" : String) = "<") = False),
         (by decide : (("nin" : String) = "<=") = False),
         (by decide : (("nin" : String) = "like") = False),
         (by decide : ((("in" : String) = "in") ∨ (("in" : String) = "nin")) = True),
         (by decide : ((("nin" : String) = "in") ∨ (("nin" : String) = "nin")) = True),
         (by decide : (("in" : String) = "in") = True),
         (by decide : (("nin" : String) = "in") = False),
         true_or, or_true, if_false, if_true]
       try dsimp only
       rw [convertLogic_norm _ w2 (by show normLogic lg = some w2; exact hw2)]
       exact ⟨rfl, rfl⟩)

/-- Witness for C9: a non-string value under `in` is rejected with an
error, and a plain comma-separated string under `in` splits into the
`$in` list. -/
theorem c9_in_set_value_rule_witness :
    ((convert ⟨"a", "in", BVal.int 5, ""⟩).2).isSome = true ∧
    ((convert ⟨"a", "in", BVal.str "x,y", ""⟩).2 = none ∧
      ((convert ⟨"a", "in", BVal.str "x,y", ""⟩).1).Value =
        (if "in" = "in" then BVal.mIn (("x,y" : String).splitOn ",")
         else BVal.mNin (("x,y" : String).splitOn ","))) :=
  ⟨(c9_in_set_value_rule "a" "in" "" (BVal.int 5) "in" (by decide) (by decide)
      (Or.inl rfl)).1 (Or.inl (by decide)),
    (c9_in_set_value_rule "a" "in" "" (BVal.str "x,y") "in" (by decide) (by decide)
      (Or.inl rfl)).2 "x,y" rfl (by decide) (by decide)⟩

/-- C10.  Symbol aliases are accepted case-insensitively and normalized to
the same canonical form as the named tokens: for `Exp` the symbols `=`,
`!=`, `>`, `>=`, `<`, `<=` and the variants `notin`/`not in` (matched
case-insensitively, e.g. `NoT In`), and for `Logic` the symbols `&`/`&&`
(same as `and`) and `|`/`||` (same as `or`, also case-insensitive `OR`).
For any structurally valid column, converting with an alias gives exactly
the same result as converting with the corresponding named token (for the
logic aliases: whenever the rest of the column converts at all). -/
theorem c10_alias_equivalence (c : Column) :
    (checkValid c = none →
      (convert { c with Exp := "=" } = convert { c with Exp := "eq" } ∧
        convert { c with Exp := "!=" } = convert { c with Exp := "neq" } ∧
        convert { c with Exp := ">" } = convert { c with Exp := "gt" } ∧
        convert { c with Exp := ">=" } = convert { c with Exp := "gte" } ∧
        convert { c with Exp := "<" } = convert { c with Exp := "lt" } ∧
        convert { c with Exp := "<=" } = convert { c with Exp := "lte" } ∧
        convert { c with Exp := "notin" } = convert { c with Exp := "nin" } ∧
        convert { c with Exp := "not in" } = convert { c with Exp := "nin" } ∧
        convert { c with Exp := "NoT In" } = convert { c with Exp := "nin" })) ∧
    ((convert { c with Logic := "and" }).2 = none →
      (convert { c with Logic := "&" } = convert { c with Logic := "and" } ∧
        convert { c with Logic := "&&" } = convert { c with Logic := "and" } ∧
        convert { c with Logic := "AND" } = convert { c with Logic := "and" } ∧
        convert { c with Logic := "|" } = convert { c with Logic := "or" } ∧
        convert { c with Logic := "||" } = convert { c with Logic := "or" } ∧
        convert { c with Logic := "OR" } = convert { c with Logic := "or" })) := by
  obtain ⟨n, e0, v, lg⟩ := c
  constructor
  · intro hcv
    exact ⟨convert_exp_alias n "=" "eq" lg "=" v (by decide) (by decide) (by decide)
        (by decide) hcv,
      convert_exp_alias n "!=" "neq" lg "!=" v (by decide) (by decide) (by decide)
        (by decide) hcv,
      convert_exp_alias n ">" "gt" lg ">" v (by decide) (by decide) (by decide)
        (by decide) hcv,
      convert_exp_alias n ">=" "gte" lg ">=" v (by decide) (by decide) (by decide)
        (by decide) hcv,
      convert_exp_alias n "<" "lt" lg "<" v (by decide) (by decide) (by decide)
        (by decide) hcv,
      convert_exp_alias n "<=" "lte" lg "<=" v (by decide) (by decide) (by decide)
        (by decide) hcv,
      convert_exp_alias n "notin" "nin" lg "nin" v (by decide) (by decide) (by decide)
        (by decide) hcv,
      convert_exp_alias n "not in" "nin" lg "nin" v (by decide) (by decide) (by decide)
        (by decide) hcv,
      convert_exp_alias n "NoT In" "nin" lg "nin" v (by decide) (by decide) (by decide)
        (by decide) hcv⟩
  · intro hs
    have hnone : ∀ lg1 : String, (normLogic lg1).isSome →
        (convert ⟨n, e0, v, lg1⟩).2 = none := by
      intro lg1 h1
      have hh := (convert_congr_logic n e0 lg1 "and" v h1 (by decide)).1
      rw [hh]
      exact hs
    exact ⟨convert_logic_alias n e0 "&" "and" "&" v (by decide) (by decide)
        (hnone "&" (by decide)),
      convert_logic_alias n e0 "&&" "and" "&" v (by decide) (by decide)
        (hnone "&&" (by decide)),
      convert_logic_alias n e0 "AND" "and" "&" v (by decide) (by decide)
        (hnone "AND" (by decide)),
      convert_logic_alias n e0 "|" "or" "|" v (by decide) (by decide)
        (hnone "|" (by decide)),
      convert_logic_alias n e0 "||" "or" "|" v (by decide) (by decide)
        (hnone "||" (by decide)),
      convert_logic_alias n e0 "OR" "or" "|" v (by decide) (by decide)
        (hnone "OR" (by decide))⟩

/-- Witness for C10 at a concrete column: the `=` alias behaves like `eq`
and the `&` alias like `and`. -/
theorem c10_alias_equivalence_witness :
    convert { (⟨"a", "", BVal.int 1, ""⟩ : Column) with Exp := "=" } =
      convert { (⟨"a", "", BVal.int 1, ""⟩ : Column) with Exp := "eq" } ∧
    convert { (⟨"a", "", BVal.int 1, ""⟩ : Column) with Logic := "&" } =
      convert { (⟨"a", "", BVal.int 1, ""⟩ : Column) with Logic := "and" } :=
  ⟨((c10_alias_equivalence ⟨"a", "", BVal.int 1, ""⟩).1 (by decide)).1,
    ((c10_alias_equivalence ⟨"a", "", BVal.int 1, ""⟩).2 (by decide)).1⟩

end Query
